/-
Verification of the Blob Ross drawing toy (src/src/App.tsx).

The source is TypeScript operating on IEEE doubles; we embed the arithmetic
over the real numbers ℝ (exact arithmetic), which is the idealised semantics
the specification reasons in.  Rotation degrees are stored as ℤ: the app only
ever writes 0 and `(r + 90) % 360`, so values stay non-negative integers,
where JavaScript's `%` agrees with `Int.emod`.  Math.random() is modelled as
an arbitrary stream `rand : ℕ → ℝ` of values in [0,1), consumed in call
order.
-/
import Mathlib

/-- A 2D point, mirroring the `Vertex` interface. -/
structure Vertex where
  x : ℝ
  y : ℝ

/-- A vertex together with its two Bezier control handles,
mirroring the `BezierPoint` interface. -/
structure BezierPoint where
  x : ℝ
  y : ℝ
  cp1x : ℝ
  cp1y : ℝ
  cp2x : ℝ
  cp2y : ℝ

/-- The `ShapeConfig` interface. -/
structure ShapeConfig where
  vertices : List Vertex
  points : List BezierPoint
  color : String
  rotation : ℤ
  flipX : Bool
  flipY : Bool

/-- The `InteractionMode` union type. -/
inductive InteractionMode where
  | draw
  | erase
  | liquify
deriving DecidableEq, Repr

/-- Constant `CANVAS_SIZE = 600` from App.tsx. -/
def CANVAS_SIZE : ℝ := 600

/-- Constant `LIQUIFY_RADIUS = 60` from App.tsx. -/
def LIQUIFY_RADIUS : ℝ := 60

/-- Constant `LIQUIFY_STRENGTH = 0.8` from App.tsx. -/
noncomputable def LIQUIFY_STRENGTH : ℝ := 0.8

/-- Function `computeBezierPoints` from App.tsx.  The JS index expression
`(i - 1 + numPoints) % numPoints` is evaluated over ℤ, exactly as JS number
arithmetic does (all quantities are small integers), then converted back to a
list index. -/
noncomputable def computeBezierPoints (vertices : List Vertex) : List BezierPoint :=
  let numPoints := vertices.length
  vertices.mapIdx (fun i p =>
    let prev := vertices.getD (((i : ℤ) - 1 + (numPoints : ℤ)) % (numPoints : ℤ)).toNat ⟨0, 0⟩
    let next := vertices.getD ((i + 1) % numPoints) ⟨0, 0⟩
    let tension : ℝ := 0.3
    let cp1x := p.x - (next.x - prev.x) * tension
    let cp1y := p.y - (next.y - prev.y) * tension
    let cp2x := p.x + (next.x - prev.x) * tension
    let cp2y := p.y + (next.y - prev.y) * tension
    { x := p.x, y := p.y, cp1x := cp1x, cp1y := cp1y, cp2x := cp2x, cp2y := cp2y })

/-- The fixed palette `blobColors` of `generateRandomShape`. -/
def blobColors : List String :=
  ["#f4c8d5", "#80cbfa", "#8ed99e", "#c3b1db", "#f2ebda", "#5ba470", "#ebcf64"]

/-- Default colour for the palette lookup (never used: the floor index is
always in range). -/
def defaultColor : String := ""

/-- Function `generateRandomShape` from App.tsx, with `Math.random()` replaced by the
stream `rand`: call `k` of `Math.random()` reads `rand k`.  Call 0 picks the
vertex count, calls `1..numPoints` pick the per-vertex radii, and the final
call picks the colour. -/
noncomputable def generateRandomShape (rand : ℕ → ℝ) : ShapeConfig :=
  let numPoints := (⌊rand 0 * 4⌋).toNat + 6
  let centerX := CANVAS_SIZE / 2
  let centerY := CANVAS_SIZE / 2
  let baseRadius := CANVAS_SIZE * 0.25
  let vertices := (List.range numPoints).map (fun (i : ℕ) =>
    let angle := ((i : ℝ) / (numPoints : ℝ)) * Real.pi * 2
    let radius := baseRadius + (rand (i + 1) - 0.5) * baseRadius * 1.2
    { x := centerX + Real.cos angle * radius,
      y := centerY + Real.sin angle * radius : Vertex })
  let bezierPoints := computeBezierPoints vertices
  let color := blobColors.getD (⌊rand (numPoints + 1) * (blobColors.length : ℝ)⌋).toNat defaultColor
  { vertices := vertices, points := bezierPoints, color := color,
    rotation := 0, flipX := false, flipY := false }

/-- The forward rigid transform the renderer (`drawShape`) installs before
painting: `translate(c, c); rotate(θ); scale(fx, fy); translate(-c, -c)` with
`θ = rotation·π/180`.  A canvas transform list maps a local point by applying
the listed operations right-to-left, so a local point `p` goes to
`c + R_θ(S_flip(p - c))`. -/
noncomputable def forwardTransform (rotation : ℤ) (flipX flipY : Bool) (p : Vertex) : Vertex :=
  let θ := (rotation : ℝ) * Real.pi / 180
  let tx := p.x - CANVAS_SIZE / 2
  let ty := p.y - CANVAS_SIZE / 2
  let sx := (if flipX then (-1 : ℝ) else 1) * tx
  let sy := (if flipY then (-1 : ℝ) else 1) * ty
  let rx := sx * Real.cos θ - sy * Real.sin θ
  let ry := sx * Real.sin θ + sy * Real.cos θ
  { x := rx + CANVAS_SIZE / 2, y := ry + CANVAS_SIZE / 2 }

/-- Function `transformCoords` from `handleMouseMove`: the deformation engine's
inverse mapping from screen space to shape-local space. -/
noncomputable def transformCoords (rotation : ℤ) (flipX flipY : Bool) (p : Vertex) : Vertex :=
  let tx := p.x - CANVAS_SIZE / 2
  let ty := p.y - CANVAS_SIZE / 2
  let rad := (-(rotation : ℝ)) * Real.pi / 180
  let rx := tx * Real.cos rad - ty * Real.sin rad
  let ry := tx * Real.sin rad + ty * Real.cos rad
  let sx := if flipX then -rx else rx
  let sy := if flipY then -ry else ry
  { x := sx + CANVAS_SIZE / 2, y := sy + CANVAS_SIZE / 2 }

/-- Euclidean distance as computed in the liquify vertex sweep:
`Math.sqrt(Math.pow(v.x - c.x, 2) + Math.pow(v.y - c.y, 2))`. -/
noncomputable def vdist (a b : Vertex) : ℝ :=
  Real.sqrt ((a.x - b.x) ^ 2 + (a.y - b.y) ^ 2)

/-- The per-vertex update of the liquify sweep in `handleMouseMove`:
vertices strictly inside `LIQUIFY_RADIUS` of the local cursor are pushed
along the local displacement `(ldx, ldy)` with linear falloff. -/
noncomputable def liquifyVertex (localCoords : Vertex) (ldx ldy : ℝ) (v : Vertex) : Vertex :=
  let dist := vdist v localCoords
  if dist < LIQUIFY_RADIUS then
    let force := (1 - dist / LIQUIFY_RADIUS) * LIQUIFY_STRENGTH
    { x := v.x + ldx * force, y := v.y + ldy * force }
  else
    v

/-- One liquify step of `handleMouseMove` (the `mode === 'liquify'` branch):
map the previous and current screen points to shape-local space, form the
local displacement, sweep all vertices, and rebuild the Bezier points. -/
noncomputable def liquify (s : ShapeConfig) (prevScreen currScreen : Vertex) : ShapeConfig :=
  let localCoords := transformCoords s.rotation s.flipX s.flipY currScreen
  let prevLocalCoords := transformCoords s.rotation s.flipX s.flipY prevScreen
  let ldx := localCoords.x - prevLocalCoords.x
  let ldy := localCoords.y - prevLocalCoords.y
  let newVertices := s.vertices.map (fun v => liquifyVertex localCoords ldx ldy v)
  { s with vertices := newVertices, points := computeBezierPoints newVertices }

/-- Action `rotateShape`: advance the rotation by 90 degrees modulo 360. -/
def rotateShape (s : ShapeConfig) : ShapeConfig :=
  { s with rotation := (s.rotation + 90) % 360 }

/-- Action `flipHorizontal`: toggle the horizontal flip flag. -/
def flipHorizontal (s : ShapeConfig) : ShapeConfig :=
  { s with flipX := !s.flipX }

/-- Action `flipVertical`: toggle the vertical flip flag. -/
def flipVertical (s : ShapeConfig) : ShapeConfig :=
  { s with flipY := !s.flipY }

/-- The React state `handleMouseMove` reads: the current shape (possibly
absent), whether a pointer interaction is in progress, the last recorded
pointer position (possibly absent) and the interaction mode.  The ink-layer
canvas is a raster side effect with no data dependency on the shape and is
not modelled. -/
structure AppState where
  shape : Option ShapeConfig
  isInteracting : Bool
  lastPos : Option Vertex
  mode : InteractionMode

/-- Handler `handleMouseMove` as it acts on the modelled state: an early return when
no interaction is in progress; the liquify branch runs only when the mode is
liquify, a shape exists and a previous position is recorded; finally
`lastPos.current = coords`. -/
noncomputable def handleMouseMove (st : AppState) (coords : Vertex) : AppState :=
  if !st.isInteracting then st
  else
    let st1 :=
      match st.mode, st.shape, st.lastPos with
      | InteractionMode.liquify, some sh, some lp =>
          { st with shape := some (liquify sh lp coords) }
      | _, _, _ => st
    { st1 with lastPos := some coords }

/-- Iterated liquify steps: fold a list of (previous, current) screen-point
pairs through `liquify`. -/
noncomputable def liquifySeq (s : ShapeConfig) (moves : List (Vertex × Vertex)) : ShapeConfig :=
  moves.foldl (fun sh m => liquify sh m.1 m.2) s

/-- Default vertex used to state list lookups. -/
def v0 : Vertex := { x := 0, y := 0 }

/-- Default Bezier point used to state list lookups. -/
def b0 : BezierPoint := { x := 0, y := 0, cp1x := 0, cp1y := 0, cp2x := 0, cp2y := 0 }

/-- A concrete shape used by witnesses. -/
def testShape : ShapeConfig :=
  { vertices := [], points := [], color := "", rotation := 0,
    flipX := false, flipY := false }

/-- The constant random stream 1/2, used by witnesses. -/
noncomputable def halfStream : ℕ → ℝ := fun _ => 1 / 2


theorem computeBezierPoints_length (vs : List Vertex) :
    (computeBezierPoints vs).length = vs.length := by
  simp [computeBezierPoints]

theorem getD_mapIdx_eq (l : List Vertex) (f : ℕ → Vertex → BezierPoint) (i : ℕ)
    (h : i < l.length) (d : BezierPoint) (d0 : Vertex) :
    (l.mapIdx f).getD i d = f i (l.getD i d0) := by
  have h2 : i < (l.mapIdx f).length := by simpa using h
  rw [List.getD_eq_getElem _ _ h2, List.getD_eq_getElem _ _ h]
  have hg := List.get_mapIdx l f i h
  simp only [List.get_eq_getElem] at hg
  exact hg

theorem computeBezierPoints_getD (vs : List Vertex) (i : ℕ) (hi : i < vs.length) :
    (computeBezierPoints vs).getD i b0 =
      (let p := vs.getD i v0
       let prev := vs.getD (((i : ℤ) - 1 + (vs.length : ℤ)) % (vs.length : ℤ)).toNat v0
       let next := vs.getD ((i + 1) % vs.length) v0
       { x := p.x, y := p.y,
         cp1x := p.x - (next.x - prev.x) * 0.3, cp1y := p.y - (next.y - prev.y) * 0.3,
         cp2x := p.x + (next.x - prev.x) * 0.3, cp2y := p.y + (next.y - prev.y) * 0.3 }) := by
  unfold computeBezierPoints
  rw [getD_mapIdx_eq vs _ i hi b0 v0]
  simp [v0]

theorem liquify_vertices_length (s : ShapeConfig) (p c : Vertex) :
    (liquify s p c).vertices.length = s.vertices.length := by
  simp [liquify]

theorem liquifySeq_vertices_length (s : ShapeConfig) (moves : List (Vertex × Vertex)) :
    (liquifySeq s moves).vertices.length = s.vertices.length := by
  induction moves generalizing s with
  | nil => rfl
  | cons m ms ih =>
      show (liquifySeq (liquify s m.1 m.2) ms).vertices.length = s.vertices.length
      rw [ih (liquify s m.1 m.2), liquify_vertices_length]

/-- C2: liquify falloff.  With `radius = 60` and `strength = 0.8`, a vertex at
distance at least the radius from the local cursor is unchanged; a vertex
strictly inside moves by `d * ((1 - dist/radius) * strength)`; in particular a
vertex at distance 0 gains `d * 0.8` and one at distance 30 gains `0.4 * d`. -/
theorem liquify_falloff (c v : Vertex) (dx dy : ℝ) :
    (60 ≤ vdist v c → liquifyVertex c dx dy v = v) ∧
    (vdist v c < 60 →
       liquifyVertex c dx dy v =
         { x := v.x + dx * ((1 - vdist v c / 60) * 0.8),
           y := v.y + dy * ((1 - vdist v c / 60) * 0.8) }) ∧
    (vdist v c = 0 →
       liquifyVertex c dx dy v = { x := v.x + dx * 0.8, y := v.y + dy * 0.8 }) ∧
    (vdist v c = 30 →
       liquifyVertex c dx dy v = { x := v.x + 0.4 * dx, y := v.y + 0.4 * dy }) := by
  unfold liquifyVertex LIQUIFY_RADIUS LIQUIFY_STRENGTH
  refine ⟨?_, ?_, ?_, ?_⟩
  · intro h
    rw [if_neg (not_lt.mpr h)]
  · intro h
    rw [if_pos h]
  · intro h
    rw [if_pos (by rw [h]; norm_num)]
    rw [h]
    norm_num
  · intro h
    rw [if_pos (by rw [h]; norm_num)]
    rw [h]
    show Vertex.mk (v.x + dx * ((1 - 30 / 60) * 0.8)) (v.y + dy * ((1 - 30 / 60) * 0.8)) = _
    have e : ((1 : ℝ) - 30 / 60) * 0.8 = 0.4 := by norm_num
    rw [e, Vertex.mk.injEq]
    exact ⟨by ring, by ring⟩

/-- Witness for C2 at a concrete input: cursor at the origin, vertex at
distance 30, raw displacement (10, 0). -/
theorem liquify_falloff_witness :
    liquifyVertex { x := 0, y := 0 } 10 0 { x := 30, y := 0 } =
      { x := 30 + 0.4 * 10, y := 0 + 0.4 * 0 } := by
  have h30 : vdist { x := 30, y := 0 } { x := 0, y := 0 } = 30 := by
    unfold vdist
    norm_num
    rw [show (900 : ℝ) = 30 ^ 2 by norm_num, Real.sqrt_sq (by norm_num)]
  exact (liquify_falloff { x := 0, y := 0 } { x := 30, y := 0 } 10 0).2.2.2 h30

/-- C4: vertex-count invariance under liquify.  Any sequence of liquify steps
preserves the number of vertices, and in a single step the vertex at index `i`
of the output is obtained from the vertex at index `i` of the input alone, so
the cyclic index order is preserved and only coordinates change. -/
theorem liquify_count_invariant (s : ShapeConfig) (moves : List (Vertex × Vertex)) :
    (liquifySeq s moves).vertices.length = s.vertices.length ∧
    ∀ (p c : Vertex) (i : ℕ), i < s.vertices.length →
      (liquify s p c).vertices.getD i v0 =
        liquifyVertex (transformCoords s.rotation s.flipX s.flipY c)
          ((transformCoords s.rotation s.flipX s.flipY c).x -
            (transformCoords s.rotation s.flipX s.flipY p).x)
          ((transformCoords s.rotation s.flipX s.flipY c).y -
            (transformCoords s.rotation s.flipX s.flipY p).y)
          (s.vertices.getD i v0) := by
  refine ⟨liquifySeq_vertices_length s moves, ?_⟩
  intro p c i hi
  have h2 : i < (liquify s p c).vertices.length := by
    rw [liquify_vertices_length]; exact hi
  unfold liquify at h2 ⊢
  rw [List.getD_eq_getElem _ _ h2, List.getD_eq_getElem _ _ hi]
  simp

/-- Witness for C4 at a concrete shape and a single move. -/
theorem liquify_count_invariant_witness :
    (liquifySeq
        { vertices := [{ x := 300, y := 100 }, { x := 400, y := 300 }, { x := 300, y := 500 }],
          points := [], color := "#f4c8d5", rotation := 0, flipX := false, flipY := false }
        [({ x := 0, y := 0 }, { x := 1, y := 1 })]).vertices.length = 3 := by
  have h := (liquify_count_invariant
    { vertices := [{ x := 300, y := 100 }, { x := 400, y := 300 }, { x := 300, y := 500 }],
      points := [], color := "#f4c8d5", rotation := 0, flipX := false, flipY := false }
    [({ x := 0, y := 0 }, { x := 1, y := 1 })]).1
  simpa using h

/-- C5: frame condition of a liquify step: `vertices` and `points` are
replaced (points rebuilt from the new vertices), while `color`, `rotation`,
`flipX` and `flipY` are untouched. -/
theorem liquify_frame (s : ShapeConfig) (p c : Vertex) :
    (liquify s p c).color = s.color ∧
    (liquify s p c).rotation = s.rotation ∧
    (liquify s p c).flipX = s.flipX ∧
    (liquify s p c).flipY = s.flipY ∧
    (liquify s p c).vertices =
      s.vertices.map (fun v =>
        liquifyVertex (transformCoords s.rotation s.flipX s.flipY c)
          ((transformCoords s.rotation s.flipX s.flipY c).x -
            (transformCoords s.rotation s.flipX s.flipY p).x)
          ((transformCoords s.rotation s.flipX s.flipY c).y -
            (transformCoords s.rotation s.flipX s.flipY p).y) v) ∧
    (liquify s p c).points = computeBezierPoints ((liquify s p c).vertices) := by
  unfold liquify
  refine ⟨rfl, rfl, rfl, rfl, rfl, rfl⟩

/-- C7: rotation arithmetic.  `rotateShape` sends rotation `r` to
`(r + 90) % 360`; starting from a rotation in {0, 90, 180, 270}, four
sequential rotations restore it; each flip action toggles exactly its own
flag and leaves the rest of the rotation state (rotation and the other flag)
unchanged. -/
theorem rotate_flip_spec (s : ShapeConfig)
    (h : s.rotation ∈ ([0, 90, 180, 270] : List ℤ)) :
    (rotateShape s).rotation = (s.rotation + 90) % 360 ∧
    (rotateShape (rotateShape (rotateShape (rotateShape s)))).rotation = s.rotation ∧
    (flipHorizontal s).flipX = !s.flipX ∧
    (flipHorizontal s).flipY = s.flipY ∧
    (flipHorizontal s).rotation = s.rotation ∧
    (flipVertical s).flipY = !s.flipY ∧
    (flipVertical s).flipX = s.flipX ∧
    (flipVertical s).rotation = s.rotation := by
  refine ⟨rfl, ?_, rfl, rfl, rfl, rfl, rfl, rfl⟩
  simp only [rotateShape]
  simp only [List.mem_cons, List.not_mem_nil, or_false] at h
  rcases h with h | h | h | h <;> rw [h] <;> decide

/-- Witness for C7 at a concrete shape with rotation 0. -/
theorem rotate_flip_spec_witness :
    testShape.rotation ∈ ([0, 90, 180, 270] : List ℤ) ∧
    (rotateShape (rotateShape (rotateShape (rotateShape testShape)))).rotation =
      testShape.rotation :=
  ⟨by decide, (rotate_flip_spec testShape (by decide)).2.1⟩

/-- C8: a liquify move with no recorded previous pointer position, or with no
shape, or outside an interaction, leaves the shape unchanged. -/
theorem liquify_noop_without_history (st : AppState) (c : Vertex)
    (h : st.lastPos = none ∨ st.shape = none ∨ st.isInteracting = false) :
    (handleMouseMove st c).shape = st.shape := by
  rcases st with ⟨sh, ii, lp, md⟩
  cases ii with
  | false => simp [handleMouseMove]
  | true =>
      simp only [handleMouseMove, Bool.not_true, Bool.false_eq_true, if_false]
      rcases h with h | h | h
      · simp only at h
        subst h
        cases md <;> cases sh <;> rfl
      · simp only at h
        subst h
        cases md <;> cases lp <;> rfl
      · simp only at h
        exact absurd h (by simp)

/-- Witness for C8: liquify mode with a shape present but no previous point. -/
theorem liquify_noop_without_history_witness :
    ((⟨some testShape, true, none, InteractionMode.liquify⟩ : AppState).lastPos = none ∨
      (⟨some testShape, true, none, InteractionMode.liquify⟩ : AppState).shape = none ∨
      (⟨some testShape, true, none, InteractionMode.liquify⟩ : AppState).isInteracting = false) ∧
    (handleMouseMove ⟨some testShape, true, none, InteractionMode.liquify⟩
        { x := 5, y := 5 }).shape =
      (⟨some testShape, true, none, InteractionMode.liquify⟩ : AppState).shape :=
  ⟨Or.inl rfl,
   liquify_noop_without_history ⟨some testShape, true, none, InteractionMode.liquify⟩
     { x := 5, y := 5 } (Or.inl rfl)⟩

theorem transformCoords_forwardTransform (r : ℤ) (fx fy : Bool) (p : Vertex) :
    transformCoords r fx fy (forwardTransform r fx fy p) = p := by
  rcases p with ⟨px, py⟩
  have hcs := Real.sin_sq_add_cos_sq ((r : ℝ) * Real.pi / 180)
  cases fx <;> cases fy <;>
    simp only [transformCoords, forwardTransform, CANVAS_SIZE, Bool.false_eq_true,
      if_false, if_true, one_mul, neg_mul, neg_div, Real.cos_neg, Real.sin_neg,
      Vertex.mk.injEq] <;>
    exact ⟨by linear_combination (px - 300) * hcs, by linear_combination (py - 300) * hcs⟩

/-- C1: round-trip of the rigid transform.  For every rotation in
{0, 90, 180, 270} and every flip combination, the renderer's forward
transform followed by the deformation engine's inverse mapping
(`transformCoords`) is the identity on local points.  (The proof holds for
every integer rotation; the claim's four rotations are the stated cases.) -/
theorem transform_roundtrip (r : ℤ) (fx fy : Bool) (p : Vertex)
    (h : r ∈ ([0, 90, 180, 270] : List ℤ)) :
    transformCoords r fx fy (forwardTransform r fx fy p) = p :=
  transformCoords_forwardTransform r fx fy p

/-- Witness for C1 at rotation 90 with a horizontal flip. -/
theorem transform_roundtrip_witness :
    (90 : ℤ) ∈ ([0, 90, 180, 270] : List ℤ) ∧
    transformCoords 90 true false (forwardTransform 90 true false { x := 10, y := 20 }) =
      { x := 10, y := 20 } :=
  ⟨by decide, transform_roundtrip 90 true false { x := 10, y := 20 } (by decide)⟩

/-- C3: the curve-control-point derivation.  For a vertex sequence of length
at least 3 and any index `i`, the output has the same length as the input and
the point at index `i` sits at `vertices[i]` with
`cp1 = vertices[i] - (next - prev) * 0.3` and
`cp2 = vertices[i] + (next - prev) * 0.3`, where `prev` and `next` are the
cyclic neighbours.  (`computeBezierPoints` is a Lean function, hence
deterministic and side-effect free by construction.) -/
theorem computeBezierPoints_spec (vs : List Vertex) (hn : 3 ≤ vs.length)
    (i : ℕ) (hi : i < vs.length) :
    (computeBezierPoints vs).length = vs.length ∧
    (computeBezierPoints vs).getD i b0 =
      { x := (vs.getD i v0).x, y := (vs.getD i v0).y,
        cp1x := (vs.getD i v0).x -
          ((vs.getD ((i + 1) % vs.length) v0).x -
            (vs.getD (((i : ℤ) - 1 + (vs.length : ℤ)) % (vs.length : ℤ)).toNat v0).x) * 0.3,
        cp1y := (vs.getD i v0).y -
          ((vs.getD ((i + 1) % vs.length) v0).y -
            (vs.getD (((i : ℤ) - 1 + (vs.length : ℤ)) % (vs.length : ℤ)).toNat v0).y) * 0.3,
        cp2x := (vs.getD i v0).x +
          ((vs.getD ((i + 1) % vs.length) v0).x -
            (vs.getD (((i : ℤ) - 1 + (vs.length : ℤ)) % (vs.length : ℤ)).toNat v0).x) * 0.3,
        cp2y := (vs.getD i v0).y +
          ((vs.getD ((i + 1) % vs.length) v0).y -
            (vs.getD (((i : ℤ) - 1 + (vs.length : ℤ)) % (vs.length : ℤ)).toNat v0).y) * 0.3 } :=
  ⟨computeBezierPoints_length vs, computeBezierPoints_getD vs i hi⟩

/-- Witness for C3 on a concrete triangle at index 0. -/
theorem computeBezierPoints_spec_witness :
    3 ≤ ([{ x := 0, y := 0 }, { x := 10, y := 0 }, { x := 0, y := 10 }] : List Vertex).length ∧
    (computeBezierPoints [{ x := 0, y := 0 }, { x := 10, y := 0 }, { x := 0, y := 10 }]).length
      = 3 := by
  refine ⟨by decide, ?_⟩
  have h := (computeBezierPoints_spec
    [{ x := 0, y := 0 }, { x := 10, y := 0 }, { x := 0, y := 10 }]
    (by decide) 0 (by decide)).1
  simpa using h

/-- C9: implicit tangent symmetry.  Each derived Bezier point sits exactly at
its vertex and is the midpoint of its two control handles. -/
theorem bezier_tangent_symmetry (vs : List Vertex) (i : ℕ) (hi : i < vs.length) :
    ((computeBezierPoints vs).getD i b0).x = (vs.getD i v0).x ∧
    ((computeBezierPoints vs).getD i b0).y = (vs.getD i v0).y ∧
    ((computeBezierPoints vs).getD i b0).cp1x + ((computeBezierPoints vs).getD i b0).cp2x =
      2 * ((computeBezierPoints vs).getD i b0).x ∧
    ((computeBezierPoints vs).getD i b0).cp1y + ((computeBezierPoints vs).getD i b0).cp2y =
      2 * ((computeBezierPoints vs).getD i b0).y := by
  rw [computeBezierPoints_getD vs i hi]
  refine ⟨rfl, rfl, by ring, by ring⟩

/-- Witness for C9 on a concrete one-vertex sequence. -/
theorem bezier_tangent_symmetry_witness :
    0 < ([{ x := 7, y := 8 }] : List Vertex).length ∧
    ((computeBezierPoints [{ x := 7, y := 8 }]).getD 0 b0).cp1x +
        ((computeBezierPoints [{ x := 7, y := 8 }]).getD 0 b0).cp2x =
      2 * ((computeBezierPoints [{ x := 7, y := 8 }]).getD 0 b0).x :=
  ⟨by decide, (bezier_tangent_symmetry [{ x := 7, y := 8 }] 0 (by decide)).2.2.1⟩

theorem generateRandomShape_vertices_length (rand : ℕ → ℝ) :
    (generateRandomShape rand).vertices.length = (⌊rand 0 * 4⌋).toNat + 6 := by
  simp [generateRandomShape]

theorem generateRandomShape_vertex (rand : ℕ → ℝ) (i : ℕ)
    (hi : i < (⌊rand 0 * 4⌋).toNat + 6) :
    (generateRandomShape rand).vertices.getD i v0 =
      { x := CANVAS_SIZE / 2 +
          Real.cos (((i : ℝ) / ((((⌊rand 0 * 4⌋).toNat + 6 : ℕ)) : ℝ)) * Real.pi * 2) *
            (CANVAS_SIZE * 0.25 + (rand (i + 1) - 0.5) * (CANVAS_SIZE * 0.25) * 1.2),
        y := CANVAS_SIZE / 2 +
          Real.sin (((i : ℝ) / ((((⌊rand 0 * 4⌋).toNat + 6 : ℕ)) : ℝ)) * Real.pi * 2) *
            (CANVAS_SIZE * 0.25 + (rand (i + 1) - 0.5) * (CANVAS_SIZE * 0.25) * 1.2) } := by
  have hlen : i < ((generateRandomShape rand).vertices).length := by
    rw [generateRandomShape_vertices_length]; exact hi
  rw [List.getD_eq_getElem _ _ hlen]
  simp only [generateRandomShape]
  simp [List.getElem_map, List.getElem_range]

theorem floor_rand_bounds (u : ℝ) (h0 : 0 ≤ u) (h1 : u < 1) :
    0 ≤ ⌊u * 4⌋ ∧ ⌊u * 4⌋ ≤ 3 := by
  constructor
  · exact Int.floor_nonneg.mpr (by linarith)
  · have : ⌊u * 4⌋ < 4 := Int.floor_lt.mpr (by norm_num; linarith)
    omega

/-- C6: shape generation.  With every random sample in [0,1): the vertex
count is an integer in the inclusive range 6..9, taking the value `6 + j`
exactly when the first sample lies in `[j/4, (j+1)/4)` (so the four counts
partition [0,1) into equal quarters); vertex `i` sits at angle `(i/n)·2π`
around the canvas centre `(S/2, S/2)` at radius
`baseRadius + (u - 0.5)·baseRadius·1.2` with `baseRadius = 0.25·S` and `u`
the fresh sample for that vertex; and the shape starts with rotation 0 and
both flips off. -/
theorem generate_spec (rand : ℕ → ℝ) (h : ∀ k, 0 ≤ rand k ∧ rand k < 1) :
    (6 ≤ (generateRandomShape rand).vertices.length ∧
      (generateRandomShape rand).vertices.length ≤ 9) ∧
    (∀ j : ℕ, j < 4 →
      ((generateRandomShape rand).vertices.length = 6 + j ↔
        (j : ℝ) / 4 ≤ rand 0 ∧ rand 0 < ((j : ℝ) + 1) / 4)) ∧
    (∀ i : ℕ, i < (generateRandomShape rand).vertices.length →
      (generateRandomShape rand).vertices.getD i v0 =
        { x := CANVAS_SIZE / 2 +
            Real.cos (((i : ℝ) / (((generateRandomShape rand).vertices.length : ℕ) : ℝ)) *
                Real.pi * 2) *
              (CANVAS_SIZE * 0.25 + (rand (i + 1) - 0.5) * (CANVAS_SIZE * 0.25) * 1.2),
          y := CANVAS_SIZE / 2 +
            Real.sin (((i : ℝ) / (((generateRandomShape rand).vertices.length : ℕ) : ℝ)) *
                Real.pi * 2) *
              (CANVAS_SIZE * 0.25 + (rand (i + 1) - 0.5) * (CANVAS_SIZE * 0.25) * 1.2) }) ∧
    (generateRandomShape rand).rotation = 0 ∧
    (generateRandomShape rand).flipX = false ∧
    (generateRandomShape rand).flipY = false := by
  obtain ⟨h0, h1⟩ := h 0
  obtain ⟨hf0, hf3⟩ := floor_rand_bounds (rand 0) h0 h1
  refine ⟨?_, ?_, ?_, rfl, rfl, rfl⟩
  · rw [generateRandomShape_vertices_length]
    omega
  · intro j hj
    rw [generateRandomShape_vertices_length]
    have htn : (⌊rand 0 * 4⌋).toNat + 6 = 6 + j ↔ ⌊rand 0 * 4⌋ = (j : ℤ) := by omega
    rw [htn, Int.floor_eq_iff]
    constructor
    · rintro ⟨ha, hb⟩
      push_cast at ha hb
      constructor
      · linarith
      · linarith
    · rintro ⟨ha, hb⟩
      constructor
      · push_cast
        linarith
      · push_cast
        linarith
  · intro i hi
    rw [generateRandomShape_vertices_length] at hi ⊢
    exact generateRandomShape_vertex rand i hi

/-- Witness for C6 with the constant stream 1/2. -/
theorem generate_spec_witness :
    (∀ k : ℕ, 0 ≤ halfStream k ∧ halfStream k < 1) ∧
    (6 ≤ (generateRandomShape halfStream).vertices.length ∧
      (generateRandomShape halfStream).vertices.length ≤ 9) ∧
    (generateRandomShape halfStream).rotation = 0 :=
  ⟨fun k => by norm_num [halfStream],
   (generate_spec halfStream (fun k => by norm_num [halfStream])).1,
   (generate_spec halfStream (fun k => by norm_num [halfStream])).2.2.2.1⟩

/-- C10: implicit generated-vertex bounds.  With every random sample in
[0,1), the per-vertex effective radius `baseRadius + (u - 0.5)·baseRadius·1.2`
always lies in [60, 240) (never zero or negative), so every generated vertex
coordinate lies in [60, 540], strictly inside the 600×600 canvas. -/
theorem generated_vertex_bounds (rand : ℕ → ℝ) (h : ∀ k, 0 ≤ rand k ∧ rand k < 1) :
    (∀ k : ℕ,
      60 ≤ CANVAS_SIZE * 0.25 + (rand k - 0.5) * (CANVAS_SIZE * 0.25) * 1.2 ∧
      CANVAS_SIZE * 0.25 + (rand k - 0.5) * (CANVAS_SIZE * 0.25) * 1.2 < 240) ∧
    ∀ v ∈ (generateRandomShape rand).vertices,
      60 ≤ v.x ∧ v.x ≤ 540 ∧ 60 ≤ v.y ∧ v.y ≤ 540 ∧
      0 < v.x ∧ v.x < 600 ∧ 0 < v.y ∧ v.y < 600 := by
  have hrad : ∀ k : ℕ,
      60 ≤ CANVAS_SIZE * 0.25 + (rand k - 0.5) * (CANVAS_SIZE * 0.25) * 1.2 ∧
      CANVAS_SIZE * 0.25 + (rand k - 0.5) * (CANVAS_SIZE * 0.25) * 1.2 < 240 := by
    intro k
    obtain ⟨hk0, hk1⟩ := h k
    unfold CANVAS_SIZE
    constructor
    · linarith
    · linarith
  refine ⟨hrad, ?_⟩
  intro v hv
  rw [List.mem_iff_getElem] at hv
  obtain ⟨i, hilen, hvi⟩ := hv
  have hi : i < (⌊rand 0 * 4⌋).toNat + 6 := by
    rw [generateRandomShape_vertices_length] at hilen
    exact hilen
  have hv0 : v = (generateRandomShape rand).vertices.getD i v0 := by
    rw [List.getD_eq_getElem _ _ hilen, hvi]
  rw [hv0, generateRandomShape_vertex rand i hi]
  dsimp only
  obtain ⟨hR1, hR2⟩ := hrad (i + 1)
  set A := ((i : ℝ) / (((⌊rand 0 * 4⌋).toNat + 6 : ℕ) : ℝ)) * Real.pi * 2 with hA
  set R := CANVAS_SIZE * 0.25 + (rand (i + 1) - 0.5) * (CANVAS_SIZE * 0.25) * 1.2 with hR
  have hc1 : -1 ≤ Real.cos A := Real.neg_one_le_cos A
  have hc2 : Real.cos A ≤ 1 := Real.cos_le_one A
  have hs1 : -1 ≤ Real.sin A := Real.neg_one_le_sin A
  have hs2 : Real.sin A ≤ 1 := Real.sin_le_one A
  have hcp : 0 ≤ (1 + Real.cos A) * R := mul_nonneg (by linarith) (by linarith)
  have hcm : 0 ≤ (1 - Real.cos A) * R := mul_nonneg (by linarith) (by linarith)
  have hsp : 0 ≤ (1 + Real.sin A) * R := mul_nonneg (by linarith) (by linarith)
  have hsm : 0 ≤ (1 - Real.sin A) * R := mul_nonneg (by linarith) (by linarith)
  have hCS : CANVAS_SIZE / 2 = 300 := by unfold CANVAS_SIZE; norm_num
  rw [hCS]
  refine ⟨?_, ?_, ?_, ?_, ?_, ?_, ?_, ?_⟩
  · linarith [hcp, hR2]
  · linarith [hcm, hR2]
  · linarith [hsp, hR2]
  · linarith [hsm, hR2]
  · linarith [hcp, hR2]
  · linarith [hcm, hR2]
  · linarith [hsp, hR2]
  · linarith [hsm, hR2]

/-- Witness for C10 with the constant stream 1/2. -/
theorem generated_vertex_bounds_witness :
    (∀ k : ℕ, 0 ≤ halfStream k ∧ halfStream k < 1) ∧
    ∀ v ∈ (generateRandomShape halfStream).vertices,
      60 ≤ v.x ∧ v.x ≤ 540 ∧ 60 ≤ v.y ∧ v.y ≤ 540 ∧
      0 < v.x ∧ v.x < 600 ∧ 0 < v.y ∧ v.y < 600 :=
  ⟨fun k => by norm_num [halfStream],
   (generated_vertex_bounds halfStream (fun k => by norm_num [halfStream])).2⟩
